import Mathlib

/-!
Verification development for the gsparse repository: a shallow embedding of
the core grid model (worksheet, cell, range), the value cleaner, the CSV
tokenizer/normalizer and the dialect detector, together with theorems that
settle the behavioural claims about them.

Python strings are modelled as `List Char`, bytes as `List Nat` (one entry
per byte, each < 256), cell values as the inductive `PyValue`, and fallible
Python code as `Except String`.
-/

namespace GSparse

instance {ε α : Type} [DecidableEq ε] [DecidableEq α] : DecidableEq (Except ε α) :=
  fun x y =>
  match x, y with
  | .ok a, .ok b =>
    if h : a = b then isTrue (h ▸ rfl) else isFalse (fun hh => h (Except.ok.inj hh))
  | .error a, .error b =>
    if h : a = b then isTrue (h ▸ rfl) else isFalse (fun hh => h (Except.error.inj hh))
  | .ok _, .error _ => isFalse (fun hh => Except.noConfusion hh)
  | .error _, .ok _ => isFalse (fun hh => Except.noConfusion hh)

/-- Characters of a Lean string literal, used to write Python string
constants in claims and definitions. -/
def chars (s : String) : List Char := s.data

/-- Whitespace characters recognised by Python's `str.strip()` (ASCII part;
all inputs in this development are ASCII): space, tab, newline, carriage
return, vertical tab, form feed. -/
def isPySpace (c : Char) : Bool :=
  c.toNat = 32 || c.toNat = 9 || c.toNat = 10 || c.toNat = 13 ||
    c.toNat = 11 || c.toNat = 12

/-- Python `str.strip()`: drop leading and trailing whitespace. -/
def pyStrip (s : List Char) : List Char :=
  ((s.dropWhile isPySpace).reverse.dropWhile isPySpace).reverse

/-- Python `str.split(sep)` for a one-character separator: split at every
occurrence, keeping empty pieces. -/
def pySplit (s : List Char) (sep : Char) : List (List Char) :=
  match s with
  | [] => [[]]
  | c :: rest =>
    if c = sep then [] :: pySplit rest sep
    else
      match pySplit rest sep with
      | [] => [[c]]
      | piece :: pieces => (c :: piece) :: pieces

/-- Python `'\r\n' -> '\n'` replacement: left-to-right, non-overlapping,
as in `str.replace`. -/
def replaceCRLF : List Char → List Char
  | '\r' :: '\n' :: rest => '\n' :: replaceCRLF rest
  | c :: rest => c :: replaceCRLF rest
  | [] => []

/-- Python `'\r' -> '\n'` replacement (single-character pattern). -/
def replaceCR (s : List Char) : List Char :=
  s.map (fun c => if c = '\r' then '\n' else c)

/-- Value of a decimal digit list, most significant first. -/
def digitsVal (ds : List Char) : Nat :=
  ds.foldl (fun acc c => acc * 10 + (c.toNat - 48)) 0

/-- The decimal digit characters `0`-`9`. -/
def isDigitChar (c : Char) : Bool := 48 ≤ c.toNat && c.toNat ≤ 57

/-- Python `int(s)`: strip surrounding whitespace, allow an optional sign,
then require one or more decimal digits and nothing else; `none` models the
`ValueError` raised otherwise. -/
def pyInt (s : List Char) : Option Int :=
  match pyStrip s with
  | [] => none
  | c :: ds =>
    if c = '-' then
      if ds ≠ [] ∧ ds.all isDigitChar then some (-(digitsVal ds : Int)) else none
    else if c = '+' then
      if ds ≠ [] ∧ ds.all isDigitChar then some (digitsVal ds : Int) else none
    else if (c :: ds).all isDigitChar then some (digitsVal (c :: ds) : Int)
    else none

/-- Decimal printing with explicit fuel (structural recursion so that the
kernel can evaluate it); `natStr` supplies enough fuel. -/
def natStrAux (fuel : Nat) (n : Nat) : List Char :=
  match fuel with
  | 0 => []
  | f + 1 =>
    if n < 10 then [Char.ofNat (48 + n)]
    else natStrAux f (n / 10) ++ [Char.ofNat (48 + n % 10)]

/-- Decimal digits of a natural number, most significant first
(Python `str` of a non-negative int). -/
def natStr (n : Nat) : List Char := natStrAux (n + 1) n

/-- Python `str` of an int. -/
def intStr (n : Int) : List Char :=
  if n < 0 then '-' :: natStr n.natAbs else natStr n.natAbs

/-- A Python cell value as it occurs in this code base: `None`, a string,
an int, or a bool. -/
inductive PyValue where
  | none
  | str (s : List Char)
  | int (n : Int)
  | bool (b : Bool)
deriving DecidableEq, Repr

/-- Python truthiness of a `PyValue` (`bool(value)`). -/
def pyTruthy : PyValue → Bool
  | .none => false
  | .str s => s ≠ []
  | .int n => n ≠ 0
  | .bool b => b

/-- Python `str(value)`. -/
def pyStr : PyValue → List Char
  | .none => chars "None"
  | .str s => s
  | .int n => intStr n
  | .bool b => if b then chars "True" else chars "False"

/-- `BaseParser._is_potential_date_float`, applied to `str(value)`: a single
decimal point whose two parts parse as ints with day in 1..31 and month in
1..12. -/
def isPotentialDateFloatStr (strValue : List Char) : Bool :=
  if strValue.contains '.' then
    match pySplit strValue '.' with
    | [dayPart, monthPart] =>
      match pyInt dayPart, pyInt monthPart with
      | some day, some month => decide (1 ≤ day ∧ day ≤ 31 ∧ 1 ≤ month ∧ month ≤ 12)
      | _, _ => false
    | _ => false
  else false

/-- `BaseParser._format_date_float`, applied to `str(value)`; `int()` on a
non-numeric part raises, modelled as `Except.error`. -/
def formatDateFloatStr (strValue : List Char) : Except String (List Char) :=
  if strValue.contains '.' then
    match pySplit strValue '.' with
    | [dayPart, monthPart] =>
      match pyInt dayPart, pyInt monthPart with
      | some day, some month =>
        if day ≥ 28 ∧ month = 1 then .ok (dayPart ++ chars ".10")
        else if 1 ≤ day ∧ day ≤ 9 ∧ month = 1 then .ok (dayPart ++ chars ".10")
        else .ok (dayPart ++ [ '.' ] ++ monthPart)
      | _, _ => .error "ValueError"
    | _ => .ok strValue
  else .ok strValue

/-- `BaseParser._is_potential_date_string`: DD,MM or DD.MM with day 1..31
and month 1..12; the separator is `,` when a comma is present, else `.`. -/
def isPotentialDateString (value : List Char) : Bool :=
  if value.contains ',' || value.contains '.' then
    let sep := if value.contains ',' then ',' else '.'
    match pySplit value sep with
    | [dayPart, monthPart] =>
      match pyInt (pyStrip dayPart), pyInt (pyStrip monthPart) with
      | some day, some month => decide (1 ≤ day ∧ day ≤ 31 ∧ 1 ≤ month ∧ month ≤ 12)
      | _, _ => false
    | _ => false
  else false

/-- `BaseParser._format_date_string`: normalise the comma separator to a
period. -/
def formatDateString (value : List Char) : List Char :=
  if value.contains ',' then value.map (fun c => if c = ',' then '.' else c)
  else value

/-- The string branch of `BaseParser._clean_cell_value`: strip, unify line
endings, empty becomes `None`, date-like strings are reformatted. -/
def cleanStr (s : List Char) : PyValue :=
  let cleaned := replaceCR (replaceCRLF (pyStrip s))
  if cleaned = [] then .none
  else if isPotentialDateString cleaned then .str (formatDateString cleaned)
  else .str cleaned

/-- `BaseParser._clean_cell_value`. `preserveStrings` is the state of the
instance attribute `preserve_strings`: `Option.none` models an instance
whose `__init__` never assigned it (reading it then raises
`AttributeError`, modelled as `Except.error`). -/
def cleanCellValue (preserveStrings : Option Bool) : PyValue → Except String PyValue
  | .none => .ok .none
  | .str s => .ok (cleanStr s)
  | .int n =>
    if isPotentialDateFloatStr (intStr n) then
      (formatDateFloatStr (intStr n)).map .str
    else
      match preserveStrings with
      | some true => .ok (.str (pyStr (.int n)))
      | some false => .ok (.int n)
      | none => .error "AttributeError"
  | .bool b =>
    if isPotentialDateFloatStr (pyStr (.bool b)) then
      (formatDateFloatStr (pyStr (.bool b))).map .str
    else
      match preserveStrings with
      | some true => .ok (.str (pyStr (.bool b)))
      | some false => .ok (.bool b)
      | none => .error "AttributeError"

/-- `DataUtils.clean_value`: strings are unicode-unescaped (no-op for
strings free of a backslash-u sequence, which is all this development
needs), stripped and line-ending-normalised, empty becomes `None`; every
non-string value passes through unchanged. The unicode-escape decode step
is restricted here to strings without `\u`/`\U`, where it is the identity. -/
def dataUtilsCleanValue : PyValue → PyValue
  | .none => .none
  | .str s =>
    let cleaned := replaceCR (replaceCRLF (pyStrip s))
    if cleaned = [] then .none else .str cleaned
  | v => v

/-- A cell of the grid: 1-indexed coordinates and a value
(`formatted_value` and `formula` always default to `None` in this code
path and are omitted). -/
structure Cell where
  row : Nat
  column : Nat
  value : PyValue
deriving DecidableEq, Repr

/-- A worksheet: name, 2-D value array and declared dimensions. -/
structure Worksheet where
  name : List Char
  data : List (List PyValue)
  row_count : Nat
  column_count : Nat
deriving DecidableEq, Repr

/-- `Worksheet.__post_init__`: the name must be non-empty after stripping
(the counts, modelled as `Nat`, cannot be negative). -/
def mkWorksheet (name : List Char) (data : List (List PyValue))
    (rowCount columnCount : Nat) : Except String Worksheet :=
  if pyStrip name = [] then .error "Worksheet name cannot be empty"
  else .ok ⟨name, data, rowCount, columnCount⟩

/-- `Worksheet.get_cell`: bounds-checked 1-indexed lookup; `none` when out
of bounds. -/
def Worksheet.get_cell (ws : Worksheet) (row column : Nat) : Option Cell :=
  if 1 ≤ row ∧ row ≤ ws.row_count ∧ 1 ≤ column ∧ column ≤ ws.column_count then
    some ⟨row, column,
      if ws.data ≠ [] then (ws.data.getD (row - 1) []).getD (column - 1) .none
      else .none⟩
  else none

/-- `Worksheet.get_all_cells`: one `Cell` per stored value, row-major,
1-indexed. -/
def Worksheet.get_all_cells (ws : Worksheet) : List Cell :=
  (ws.data.enum.map (fun rowPair =>
    rowPair.2.enum.map (fun colPair =>
      Cell.mk (rowPair.1 + 1) (colPair.1 + 1) colPair.2))).flatten

/-- `Worksheet.find_cells_by_pattern`. `search` abstracts
`re.compile(pattern).search`: it holds of the strings the regex matches
somewhere. The code keeps a cell when `cell.value` is truthy AND the
pattern matches `str(cell.value)`. -/
def Worksheet.find_cells_by_pattern (ws : Worksheet)
    (search : List Char → Bool) : List Cell :=
  ws.get_all_cells.filter (fun cell => pyTruthy cell.value && search (pyStr cell.value))

/-- Tokenizer state for the `csv.reader` model. -/
inductive CsvState where
  | fieldStart (recordStarted : Bool)
  | inField
  | inQuotes
  | afterQuote
deriving DecidableEq, Repr

/-- Model of Python's `csv.reader` with the default dialect (doublequote,
no escape character, non-strict): recursion over the remaining text with
the fields of the current record and the current field as accumulators.
An empty line yields an empty record; `\r\n`, `\n` and `\r` all terminate
a record; a quote is only special at field start; a doubled quote inside a
quoted field is a literal quote; text after a closing quote is appended
literally. -/
def csvTokAux (delim quote : Char) (state : CsvState)
    (curRow : List (List Char)) (curField : List Char) :
    List Char → List (List (List Char))
  | [] =>
    match state with
    | .fieldStart false => []
    | _ => [curRow ++ [curField]]
  | '\r' :: '\n' :: rest =>
    match state with
    | .fieldStart started =>
      (if started then curRow ++ [curField] else []) ::
        csvTokAux delim quote (.fieldStart false) [] [] rest
    | .inQuotes =>
      csvTokAux delim quote .inQuotes curRow (curField ++ ['\r', '\n']) rest
    | _ =>
      (curRow ++ [curField]) :: csvTokAux delim quote (.fieldStart false) [] [] rest
  | c :: rest =>
    if c = '\n' ∨ c = '\r' then
      match state with
      | .fieldStart started =>
        (if started then curRow ++ [curField] else []) ::
          csvTokAux delim quote (.fieldStart false) [] [] rest
      | .inQuotes =>
        csvTokAux delim quote .inQuotes curRow (curField ++ [c]) rest
      | _ =>
        (curRow ++ [curField]) :: csvTokAux delim quote (.fieldStart false) [] [] rest
    else if c = quote then
      match state with
      | .fieldStart _ => csvTokAux delim quote .inQuotes curRow curField rest
      | .inField => csvTokAux delim quote .inField curRow (curField ++ [c]) rest
      | .inQuotes => csvTokAux delim quote .afterQuote curRow curField rest
      | .afterQuote => csvTokAux delim quote .inQuotes curRow (curField ++ [c]) rest
    else if c = delim then
      match state with
      | .inQuotes => csvTokAux delim quote .inQuotes curRow (curField ++ [c]) rest
      | _ => csvTokAux delim quote (.fieldStart true) (curRow ++ [curField]) [] rest
    else
      match state with
      | .fieldStart _ => csvTokAux delim quote .inField curRow (curField ++ [c]) rest
      | .inQuotes => csvTokAux delim quote .inQuotes curRow (curField ++ [c]) rest
      | _ => csvTokAux delim quote .inField curRow (curField ++ [c]) rest

/-- `list(csv.reader(io.StringIO(text), ...))`. -/
def csvTokenize (delim quote : Char) (text : List Char) : List (List (List Char)) :=
  csvTokAux delim quote (.fieldStart false) [] [] text

/-- `re.match(f'^{q}.*{q}$', field)` as used by quote detection: at least
two characters, first and last equal to the quote, no newline between
them. -/
def quoteWrapsField (q : Char) (field : List Char) : Bool :=
  field.length ≥ 2 && field.head? = some q && field.getLast? = some q &&
    ((field.drop 1).dropLast.all (fun c => c ≠ '\n'))

/-- Python `max(keys, key=counts.get)` over an insertion-ordered non-empty
association list: the first key attaining the maximal count. -/
def pyMaxKey (first : Char × Nat) (rest : List (Char × Nat)) : Char :=
  (rest.foldl (fun best p => if p.2 > best.2 then p else best) first).1

/-- Per-quote-character count of `CSVParser._detect_quote_char`: over the
first five `'\n'`-split lines that are non-blank after stripping, the
number of delimiter-split fields that the quote character wraps. -/
def quoteCount (delim q : Char) (text : List Char) : Nat :=
  (((pySplit text '\n').take 5).map (fun line =>
    if pyStrip line ≠ [] then
      ((pySplit line delim).filter (fun f => quoteWrapsField q (pyStrip f))).length
    else 0)).sum

/-- `CSVParser._detect_quote_char`: the quote character with the highest
count, `"` when all counts are zero. -/
def detectQuoteChar (delim : Char) (text : List Char) : Char :=
  let cQuot := ('"', quoteCount delim '"' text)
  let cApos := (Char.ofNat 39, quoteCount delim (Char.ofNat 39) text)
  let cGrave := (Char.ofNat 96, quoteCount delim (Char.ofNat 96) text)
  if cQuot.2 ≠ 0 ∨ cApos.2 ≠ 0 ∨ cGrave.2 ≠ 0 then pyMaxKey cQuot [cApos, cGrave]
  else '"'

/-- `latin-1` decoding: total, one character per byte. -/
def latin1Decode (data : List Nat) : Option (List Char) :=
  some (data.map (fun b => Char.ofNat (b % 256)))

/-- The decode step of `CSVParser.parse`: try the chosen encoding, then the
fallback list `utf-8`, `cp1251`, `latin-1`, `utf-16`; the chosen, utf-8,
cp1251 and utf-16 codecs are abstract parameters (`none` = raises
`UnicodeDecodeError`), latin-1 is the concrete total codec; the `for`-`else`
branch raises `ValueError`. -/
def decodeCSVBytes (primary u8 c51 u16 : List Nat → Option (List Char))
    (data : List Nat) : Except String (List Char) :=
  match primary data with
  | some t => .ok t
  | none =>
    match u8 data with
    | some t => .ok t
    | none =>
      match c51 data with
      | some t => .ok t
      | none =>
        match latin1Decode data with
        | some t => .ok t
        | none =>
          match u16 data with
          | some t => .ok t
          | none => .error "Failed to decode data with any supported encoding"

/-- `max(len(row) for row in rows) if rows else 0`. -/
def maxRowLen (rows : List (List PyValue)) : Nat :=
  rows.foldr (fun r m => max r.length m) 0

/-- Pad every row with `None` up to `columnCount`. -/
def padRows (columnCount : Nat) (rows : List (List PyValue)) : List (List PyValue) :=
  rows.map (fun r => r ++ List.replicate (columnCount - r.length) PyValue.none)

/-- Delimiter and quote configuration of a `CSVParser` instance
(defaults `,` and `"`). -/
structure CSVParserConfig where
  delimiter : Char
  quotechar : Char
deriving DecidableEq, Repr

/-- The quote character `CSVParser.parse` actually uses: auto-detected
when the configured quote is the default `"`. -/
def effectiveQuote (cfg : CSVParserConfig) (text : List Char) : Char :=
  if cfg.quotechar = '"' then detectQuoteChar cfg.delimiter text
  else cfg.quotechar

/-- The steps of `CSVParser.parse` after byte decoding: quote
auto-detection when the configured quote is the default `"`, tokenization,
the empty-rows early return, per-cell cleaning (with `preserve_strings`
unset, since `CSVParser.__init__` does not call `BaseParser.__init__`),
dimension computation and padding. -/
def csvParseText (cfg : CSVParserConfig) (name text : List Char) :
    Except String Worksheet :=
  let rows := csvTokenize cfg.delimiter (effectiveQuote cfg text) text
  if rows = [] then mkWorksheet name [] 0 0
  else do
    let cleaned ← rows.mapM (fun row =>
      row.mapM (fun f => cleanCellValue Option.none (.str f)))
    mkWorksheet name (padRows (maxRowLen cleaned) cleaned) cleaned.length
      (maxRowLen cleaned)

/-- `CSVParser.parse`: decode, then normalise. -/
def csvParse (primary u8 c51 u16 : List Nat → Option (List Char))
    (cfg : CSVParserConfig) (name : List Char) (data : List Nat) :
    Except String Worksheet := do
  let text ← decodeCSVBytes primary u8 c51 u16 data
  csvParseText cfg name text

/-- The cleaned pre-padding rows of the CSV pipeline, as a total function
(cleaning a string never raises). -/
def csvCleanRows (tokens : List (List (List Char))) : List (List PyValue) :=
  tokens.map (fun row => row.map cleanStr)

/-- The per-sheet normalisation of `XLSXParser.parse` (lines 52-75),
applied to the rows extracted from the workbook by `iter_rows`
(the binary workbook reader is the external openpyxl library, so the rows
are a parameter). `preserveStrings` is the instance's `preserve_strings`
attribute state; `XLSXParser.__init__` leaves it unset (`Option.none`). -/
def xlsxNormalize (preserveStrings : Option Bool) (name : List Char)
    (rows : List (List PyValue)) : Except String Worksheet := do
  let cleaned ← rows.mapM (fun row => row.mapM (cleanCellValue preserveStrings))
  mkWorksheet name (padRows (maxRowLen cleaned) cleaned) cleaned.length
    (maxRowLen cleaned)

/-- Per-delimiter count of `CSVParser.detect_delimiter`: raw occurrences
summed over the first five `'\n'`-split lines that are non-blank after
stripping. -/
def delimiterCount (text : List Char) (d : Char) : Nat :=
  (((pySplit text '\n').take 5).map (fun line =>
    if pyStrip line ≠ [] then line.count d else 0)).sum

/-- `CSVParser.detect_delimiter` after decoding: the candidate among
`,` `;` tab `|` with the highest count, first-in-order on ties. -/
def detectDelimiterText (text : List Char) : Char :=
  pyMaxKey (',', delimiterCount text ',')
    [(';', delimiterCount text ';'), ('\t', delimiterCount text '\t'),
     ('|', delimiterCount text '|')]

/-- The base-26 letter loop with explicit fuel (structural recursion so
that the kernel can evaluate it); `numberToColumnLetter` supplies enough
fuel. Each iteration of the source loop decrements, emits
`chr(65 + col % 26)` and divides by 26. -/
def numberToColumnLetterAux (fuel : Nat) (colNum : Nat) : List Char :=
  match fuel with
  | 0 => []
  | f + 1 =>
    match colNum with
    | 0 => []
    | m + 1 => numberToColumnLetterAux f (m / 26) ++ [Char.ofNat (65 + m % 26)]

/-- `Range._number_to_column_letter` / `Cell._number_to_column_letter`:
bijective base-26 column letters (1 → A, 26 → Z, 27 → AA). -/
def numberToColumnLetter (colNum : Nat) : List Char :=
  numberToColumnLetterAux colNum colNum

/-- The letters-to-number accumulation inside `Range._parse_cell_address`:
`col = col*26 + (char - 'A' + 1)`. -/
def lettersVal (letters : List Char) : Nat :=
  letters.foldl (fun acc c => acc * 26 + (c.toNat - 64)) 0

/-- Python `str.upper()` (ASCII). -/
def pyUpper (s : List Char) : List Char := s.map Char.toUpper

/-- `[A-Z]` character class (code points 65-90). -/
def isUpperAlpha (c : Char) : Bool := 65 ≤ c.toNat && c.toNat ≤ 90

/-- `Range._parse_cell_address`: `re.match(r'([A-Z]+)(\d+)', s.upper())`.
`re.match` anchors at the start only, so the match succeeds exactly when
the maximal leading letter run is non-empty and is followed by at least
one digit; whatever follows the digit run is ignored. Returns
`(row, column)`. -/
def parseCellAddress (cellAddress : List Char) : Except String (Nat × Nat) :=
  let s := pyUpper cellAddress
  let letters := s.takeWhile isUpperAlpha
  let rest := s.dropWhile isUpperAlpha
  let digits := rest.takeWhile isDigitChar
  if letters ≠ [] ∧ digits ≠ [] then .ok (digitsVal digits, lettersVal letters)
  else .error "Invalid cell address format"

/-- A range of cells; the four bounds are validated by `mkRange`. -/
structure Range where
  start_row : Nat
  end_row : Nat
  start_column : Nat
  end_column : Nat
  worksheet_name : Option (List Char)
deriving DecidableEq, Repr

/-- `Range.__post_init__` validation. -/
def mkRange (startRow endRow startColumn endColumn : Nat)
    (worksheetName : Option (List Char)) : Except String Range :=
  if startRow < 1 ∨ endRow < 1 then .error "Row numbers must be greater than 0"
  else if startColumn < 1 ∨ endColumn < 1 then
    .error "Column numbers must be greater than 0"
  else if startRow > endRow then .error "Start row cannot be greater than end row"
  else if startColumn > endColumn then
    .error "Start column cannot be greater than end column"
  else .ok ⟨startRow, endRow, startColumn, endColumn, worksheetName⟩

/-- A `Range` that passes `__post_init__` validation. -/
def Range.valid (r : Range) : Prop :=
  1 ≤ r.start_row ∧ r.start_row ≤ r.end_row ∧
    1 ≤ r.start_column ∧ r.start_column ≤ r.end_column

instance (r : Range) : Decidable r.valid := by
  unfold Range.valid; infer_instance

/-- `Range.address`: `[name!]<StartCell>:<EndCell>`; the name is prefixed
only when truthy (present and non-empty). -/
def Range.address (r : Range) : List Char :=
  let startCell := numberToColumnLetter r.start_column ++ natStr r.start_row
  let endCell := numberToColumnLetter r.end_column ++ natStr r.end_row
  match r.worksheet_name with
  | some wn =>
    if wn ≠ [] then wn ++ ['!'] ++ startCell ++ [':'] ++ endCell
    else startCell ++ [':'] ++ endCell
  | none => startCell ++ [':'] ++ endCell

/-- Python `s.split(sep, 1)` when `sep in s`: the pieces before and after
the first occurrence. -/
def splitFirst (sep : Char) : List Char → Option (List Char × List Char)
  | [] => none
  | c :: rest =>
    if c = sep then some ([], rest)
    else (splitFirst sep rest).map (fun p => (c :: p.1, p.2))

/-- `Range.from_address`: optional `name!` part split at the first `!`,
range part split at the first `:` (a single cell address is used for both
ends), both cell addresses parsed, then `Range` construction with its
validation. -/
def Range.from_address (address : List Char) : Except String Range :=
  let parts := match splitFirst '!' address with
    | some p => (some p.1, p.2)
    | none => (Option.none, address)
  let cells := match splitFirst ':' parts.2 with
    | some p => (p.1, p.2)
    | none => (parts.2, parts.2)
  do
    let startPair ← parseCellAddress cells.1
    let endPair ← parseCellAddress cells.2
    mkRange startPair.1 endPair.1 startPair.2 endPair.2 parts.1

/-! ## Supporting lemmas -/

theorem all_false_dropWhile {α} (p : α → Bool) (s : List α)
    (h : ∀ c ∈ s, p c = false) : s.dropWhile p = s := by
  cases s with
  | nil => rfl
  | cons c rest => simp [List.dropWhile, h c (by simp)]

theorem pyStrip_no_space (s : List Char) (h : ∀ c ∈ s, isPySpace c = false) :
    pyStrip s = s := by
  unfold pyStrip
  rw [all_false_dropWhile _ _ h, all_false_dropWhile, List.reverse_reverse]
  intro c hc
  exact h c (by simpa using hc)

theorem pySplit_no_sep (sep : Char) (s : List Char) (h : sep ∉ s) :
    pySplit s sep = [s] := by
  induction s with
  | nil => rfl
  | cons c rest ih =>
    have hc : ¬ c = sep := by rintro rfl; exact h (by simp)
    have hr : sep ∉ rest := fun hm => h (by simp [hm])
    simp [pySplit, hc, ih hr]

theorem pySplit_append (sep : Char) (xs ys : List Char) (h : sep ∉ xs) :
    pySplit (xs ++ sep :: ys) sep = xs :: pySplit ys sep := by
  induction xs with
  | nil => simp [pySplit]
  | cons c rest ih =>
    have hc : ¬ c = sep := by rintro rfl; exact h (by simp)
    have hr : sep ∉ rest := fun hm => h (by simp [hm])
    simp [pySplit, hc, ih hr]

theorem digit_not_space (c : Char) (h : isDigitChar c = true) :
    isPySpace c = false := by
  unfold isDigitChar at h
  unfold isPySpace
  simp only [Bool.and_eq_true, decide_eq_true_eq] at h
  simp only [Bool.or_eq_false_iff, decide_eq_false_iff_not]
  omega

theorem pyInt_digits (s : List Char) (hne : s ≠ [])
    (h : ∀ c ∈ s, isDigitChar c = true) :
    pyInt s = some ((digitsVal s : Int)) := by
  have hs : pyStrip s = s := pyStrip_no_space s (fun c hc => digit_not_space c (h c hc))
  unfold pyInt
  rw [hs]
  cases s with
  | nil => exact absurd rfl hne
  | cons c rest =>
    have hcd := h c (by simp)
    have hc1 : ¬ c = '-' := by rintro rfl; exact absurd hcd (by decide)
    have hc2 : ¬ c = '+' := by rintro rfl; exact absurd hcd (by decide)
    have hall : (c :: rest).all isDigitChar = true := by
      rw [List.all_eq_true]; exact h
    simp [hc1, hc2, hall]

theorem digitsVal_append (xs : List Char) (c : Char) :
    digitsVal (xs ++ [c]) = digitsVal xs * 10 + (c.toNat - 48) := by
  unfold digitsVal
  rw [List.foldl_append]
  rfl

theorem lettersVal_append (xs : List Char) (c : Char) :
    lettersVal (xs ++ [c]) = lettersVal xs * 26 + (c.toNat - 64) := by
  unfold lettersVal
  rw [List.foldl_append]
  rfl

theorem toNat_ofNat_digit (k : Nat) (h : k < 10) :
    (Char.ofNat (48 + k)).toNat = 48 + k := by
  interval_cases k <;> decide

theorem isDigitChar_ofNat_digit (k : Nat) (h : k < 10) :
    isDigitChar (Char.ofNat (48 + k)) = true := by
  interval_cases k <;> decide

theorem toNat_ofNat_letter (k : Nat) (h : k < 26) :
    (Char.ofNat (65 + k)).toNat = 65 + k := by
  interval_cases k <;> decide

theorem isUpperAlpha_ofNat_letter (k : Nat) (h : k < 26) :
    isUpperAlpha (Char.ofNat (65 + k)) = true := by
  interval_cases k <;> decide

theorem natStrAux_congr : ∀ f g n, n < f → n < g → natStrAux f n = natStrAux g n := by
  intro f
  induction f with
  | zero => omega
  | succ f ih =>
    intro g n hf hg
    cases g with
    | zero => omega
    | succ g =>
      unfold natStrAux
      by_cases h : n < 10
      · simp [h]
      · have hdiv : n / 10 < n := Nat.div_lt_self (by omega) (by norm_num)
        simp only [h, if_false]
        rw [ih g (n / 10) (by omega) (by omega)]

theorem natStr_eq (n : Nat) :
    natStr n = if n < 10 then [Char.ofNat (48 + n)]
               else natStr (n / 10) ++ [Char.ofNat (48 + n % 10)] := by
  unfold natStr
  by_cases h : n < 10
  · simp [natStrAux, h]
  · have hdiv : n / 10 < n := Nat.div_lt_self (by omega) (by norm_num)
    conv_lhs => rw [show natStrAux (n + 1) n
      = natStrAux n (n / 10) ++ [Char.ofNat (48 + n % 10)] by simp [natStrAux, h]]
    rw [natStrAux_congr n (n / 10 + 1) (n / 10) (by omega) (by omega), if_neg h]

theorem natStr_digits (n : Nat) : ∀ c ∈ natStr n, isDigitChar c = true := by
  induction n using Nat.strong_induction_on with
  | _ n ih =>
    rw [natStr_eq]
    by_cases h : n < 10
    · simp only [h, if_true, List.mem_singleton]
      rintro c rfl
      exact isDigitChar_ofNat_digit n h
    · have hdiv : n / 10 < n := Nat.div_lt_self (by omega) (by norm_num)
      simp only [h, if_false, List.mem_append, List.mem_singleton]
      rintro c (hc | rfl)
      · exact ih (n / 10) hdiv c hc
      · exact isDigitChar_ofNat_digit (n % 10) (Nat.mod_lt _ (by norm_num))

theorem natStr_ne_nil (n : Nat) : natStr n ≠ [] := by
  rw [natStr_eq]
  by_cases h : n < 10 <;> simp [h]

theorem digitsVal_natStr (n : Nat) : digitsVal (natStr n) = n := by
  induction n using Nat.strong_induction_on with
  | _ n ih =>
    rw [natStr_eq]
    by_cases h : n < 10
    · simp only [h, if_true]
      show digitsVal ([] ++ [Char.ofNat (48 + n)]) = n
      rw [digitsVal_append, toNat_ofNat_digit n h]
      simp [digitsVal]
    · have hdiv : n / 10 < n := Nat.div_lt_self (by omega) (by norm_num)
      simp only [h, if_false]
      rw [digitsVal_append, ih (n / 10) hdiv,
        toNat_ofNat_digit (n % 10) (Nat.mod_lt _ (by norm_num))]
      omega

theorem numberToColumnLetterAux_zero (g : Nat) : numberToColumnLetterAux g 0 = [] := by
  cases g <;> rfl

theorem numberToColumnLetterAux_congr :
    ∀ f g n, n ≤ f → n ≤ g → numberToColumnLetterAux f n = numberToColumnLetterAux g n := by
  intro f
  induction f with
  | zero =>
    intro g n hf _
    have : n = 0 := by omega
    subst this
    rw [numberToColumnLetterAux_zero, numberToColumnLetterAux_zero]
  | succ f ih =>
    intro g n hf hg
    cases n with
    | zero => rw [numberToColumnLetterAux_zero, numberToColumnLetterAux_zero]
    | succ m =>
      cases g with
      | zero => omega
      | succ g =>
        show numberToColumnLetterAux f (m / 26) ++ _
          = numberToColumnLetterAux g (m / 26) ++ _
        rw [ih g (m / 26) (by have := Nat.div_le_self m 26; omega)
          (by have := Nat.div_le_self m 26; omega)]

theorem numberToColumnLetter_succ (m : Nat) :
    numberToColumnLetter (m + 1)
      = numberToColumnLetter (m / 26) ++ [Char.ofNat (65 + m % 26)] := by
  unfold numberToColumnLetter
  show numberToColumnLetterAux m (m / 26) ++ _ = _
  rw [numberToColumnLetterAux_congr m (m / 26) (m / 26)
    (Nat.div_le_self m 26) (Nat.le_refl _)]

theorem lettersVal_numberToColumnLetter (n : Nat) :
    lettersVal (numberToColumnLetter n) = n := by
  induction n using Nat.strong_induction_on with
  | _ n ih =>
    cases n with
    | zero => rfl
    | succ m =>
      rw [numberToColumnLetter_succ, lettersVal_append,
        toNat_ofNat_letter (m % 26) (Nat.mod_lt _ (by norm_num)),
        ih (m / 26) (by have := Nat.div_le_self m 26; omega)]
      have := Nat.div_add_mod m 26
      omega

theorem numberToColumnLetter_all_upper (n : Nat) :
    ∀ c ∈ numberToColumnLetter n, isUpperAlpha c = true := by
  induction n using Nat.strong_induction_on with
  | _ n ih =>
    cases n with
    | zero => simp [numberToColumnLetter, numberToColumnLetterAux]
    | succ m =>
      rw [numberToColumnLetter_succ]
      simp only [List.mem_append, List.mem_singleton]
      rintro c (hc | rfl)
      · exact ih (m / 26) (by have := Nat.div_le_self m 26; omega) c hc
      · exact isUpperAlpha_ofNat_letter (m % 26) (Nat.mod_lt _ (by norm_num))

theorem numberToColumnLetter_ne_nil (n : Nat) (h : 1 ≤ n) :
    numberToColumnLetter n ≠ [] := by
  cases n with
  | zero => omega
  | succ m =>
    rw [numberToColumnLetter_succ]
    simp

theorem numberToColumnLetter_lettersVal (s : List Char) (hne : s ≠ [])
    (h : ∀ c ∈ s, isUpperAlpha c = true) :
    numberToColumnLetter (lettersVal s) = s := by
  induction s using List.reverseRecOn with
  | nil => exact absurd rfl hne
  | append_singleton t c ih =>
    have hc : isUpperAlpha c = true := h c (by simp)
    have hcv : 65 ≤ c.toNat ∧ c.toNat ≤ 90 := by
      unfold isUpperAlpha at hc
      simp only [Bool.and_eq_true, decide_eq_true_eq] at hc
      omega
    rw [lettersVal_append]
    have hform : lettersVal t * 26 + (c.toNat - 64)
        = (lettersVal t * 26 + (c.toNat - 65)) + 1 := by omega
    rw [hform, numberToColumnLetter_succ]
    have hmod : (lettersVal t * 26 + (c.toNat - 65)) % 26 = c.toNat - 65 := by
      omega
    have hdivv : (lettersVal t * 26 + (c.toNat - 65)) / 26 = lettersVal t := by
      omega
    rw [hmod, hdivv]
    have hch : Char.ofNat (65 + (c.toNat - 65)) = c := by
      rw [show 65 + (c.toNat - 65) = c.toNat by omega]
      exact Char.ofNat_toNat c
    rw [hch]
    by_cases ht : t = []
    · subst ht
      rfl
    · rw [ih ht (fun x hx => h x (by simp [hx]))]

/-- The delimiter totals described by the spec sentence behind claim C6:
occurrences counted over the first five NON-EMPTY lines (stated from the
claim's words, for comparison with the source's `delimiterCount`). -/
def claimedDelimiterCount (text : List Char) (d : Char) : Nat :=
  ((((pySplit text '\n').filter (fun l => l ≠ [])).take 5).map
    (fun line => line.count d)).sum

/-- Position of a candidate in the enumeration order `,` `;` tab `|`. -/
def delimRank (c : Char) : Nat :=
  if c = ',' then 0 else if c = ';' then 1 else if c = '\t' then 2 else 3

/-! ## Claim theorems -/

/-- C10: the byte-decoding step of `CSVParser.parse` is total — whatever
the chosen encoding and the utf-8/cp1251/utf-16 codecs do, the fallback
chain contains latin-1, which decodes every byte string, so decoding
always succeeds and the "all encodings failed" `ValueError` branch is
unreachable. -/
theorem claim_C10_decode_total (primary u8 c51 u16 : List Nat → Option (List Char))
    (data : List Nat) :
    ∃ text, decodeCSVBytes primary u8 c51 u16 data = .ok text := by
  unfold decodeCSVBytes
  cases hp : primary data with
  | some t => exact ⟨t, rfl⟩
  | none =>
    cases h8 : u8 data with
    | some t => exact ⟨t, rfl⟩
    | none =>
      cases h51 : c51 data with
      | some t => exact ⟨t, rfl⟩
      | none => exact ⟨data.map (fun b => Char.ofNat (b % 256)), rfl⟩

/-- C3: the claimed equations hold of the string/None cases even on a
`CSVParser`-like instance (whose `__init__` never sets
`preserve_strings`, modelled by the attribute state `Option.none`), and
hold of `DataUtils.clean_value`; but cleaning the non-date-like numeric
42 on such an instance raises `AttributeError` instead of returning 42 —
it returns 42 only on an instance whose `BaseParser.__init__` ran
(attribute state `some false`). This settles C3 as a code bug: the
claimed behaviour `clean(42) == 42` is the documented default
(`preserve_strings: bool = False`) and is what the repository's own test
asserts, but `CSVParser.__init__`/`XLSXParser.__init__` skip
`super().__init__()`. -/
theorem claim_C3_clean_scalar_cases :
    cleanCellValue Option.none (.str (chars " x ")) = .ok (.str (chars "x")) ∧
    cleanCellValue Option.none (.str (chars "   ")) = .ok .none ∧
    cleanCellValue Option.none .none = .ok .none ∧
    cleanCellValue Option.none (.int 42) = .error "AttributeError" ∧
    cleanCellValue (some false) (.int 42) = .ok (.int 42) ∧
    dataUtilsCleanValue (.int 42) = .int 42 ∧
    dataUtilsCleanValue (.str (chars " x ")) = .str (chars "x") ∧
    dataUtilsCleanValue (.str (chars "   ")) = .none ∧
    dataUtilsCleanValue .none = .none := by decide

/-- C9 counterexample: in the grid `[[0]]` the cell (1,1) holds the
non-null value `0`, and the always-matching pattern (e.g. the empty regex,
which `re.search` matches against every string) should therefore return
it per the claim; but `find_cells_by_pattern` tests `cell.value` for
truthiness, not for nullness, so the zero-valued cell is dropped. -/
theorem claim_C9_counterexample :
    Worksheet.find_cells_by_pattern ⟨chars "S", [[.int 0]], 1, 1⟩ (fun _ => true) = [] ∧
    Worksheet.get_all_cells ⟨chars "S", [[.int 0]], 1, 1⟩ = [⟨1, 1, .int 0⟩] ∧
    PyValue.int 0 ≠ PyValue.none := by decide

/-- C9 (amended): for every grid and every match predicate (the abstract
`re.search` of the compiled pattern), `find_cells_by_pattern` returns
exactly the cells whose value is TRUTHY (non-null and not `0`, `""` or
`False`) and whose stringified value matches. -/
theorem claim_C9_find_cells_by_pattern (ws : Worksheet) (search : List Char → Bool)
    (cell : Cell) :
    cell ∈ ws.find_cells_by_pattern search ↔
      cell ∈ ws.get_all_cells ∧ pyTruthy cell.value = true ∧
        search (pyStr cell.value) = true := by
  unfold Worksheet.find_cells_by_pattern
  simp [List.mem_filter, and_assoc]

/-- C6 counterexample: on the text `"\n\n\n\n\n;;"` the first five raw
lines of the `'\n'` split are all empty, so the code counts nothing and
returns the tie-break `','`; but the first five NON-empty lines (the
claim's sampling rule) are `[";;"]`, over which `;` has the strictly
highest total, so the claim would require `;`. -/
theorem claim_C6_counterexample :
    detectDelimiterText (chars "\n\n\n\n\n;;") = ',' ∧
    (∀ d ∈ ([',', '\t', '|'] : List Char),
      claimedDelimiterCount (chars "\n\n\n\n\n;;") d
        < claimedDelimiterCount (chars "\n\n\n\n\n;;") ';') := by decide

/-- C6 (amended): `detect_delimiter` counts raw occurrences of each
candidate over the first five lines of the raw `'\n'` split (lines blank
after stripping contribute nothing but still use up the window), sums per
candidate, and returns the candidate with the highest total, breaking
ties by the enumeration order `,` `;` tab `|`: the returned candidate's
total is maximal, and any candidate with an equal total ranks no earlier. -/
theorem claim_C6_detect_delimiter (text : List Char) :
    detectDelimiterText text ∈ ([',', ';', '\t', '|'] : List Char) ∧
    (∀ d ∈ ([',', ';', '\t', '|'] : List Char),
      delimiterCount text d ≤ delimiterCount text (detectDelimiterText text)) ∧
    (∀ d ∈ ([',', ';', '\t', '|'] : List Char),
      delimiterCount text d = delimiterCount text (detectDelimiterText text) →
        delimRank (detectDelimiterText text) ≤ delimRank d) := by
  unfold detectDelimiterText pyMaxKey delimRank
  simp only [List.foldl_cons, List.foldl_nil]
  split_ifs <;>
    refine ⟨by simp, ?_, ?_⟩ <;>
    intro x hx <;> fin_cases hx <;> simp_all <;> omega

/-- C4 counterexample: the float `28.01` (decimal string form `"28.01"`)
satisfies the premise — single decimal point, integer part 28 in 1..31,
fractional part `"01"` reading as 1 in 1..12 — and its fractional part is
NOT the single digit `"1"`, so by the claim the digits should be kept
as-is (`"28.01"`); the code instead applies the `.10` guess because it
compares `int(month_part) == 1`, producing `"28.10"`. -/
theorem claim_C4_counterexample :
    isPotentialDateFloatStr (chars "28.01") = true ∧
    formatDateFloatStr (chars "28.01") = .ok (chars "28.10") ∧
    chars "28.10" ≠ chars "28.01" := by decide

/-- C4 (amended): for every decimal string form `day.month` (one decimal
point, digit parts, integer part 1..31, fractional part reading as
1..12), the value is recognised as date-like and reformatted as a dotted
day.month string, and the `.10` trailing-zero guess is applied exactly
when the fractional part READS AS the integer 1 (i.e. the digits `1`,
`01`, `001`, ...) and the integer part is in [1,9] or at least 28; all
other such values keep their digits as-is. -/
theorem claim_C4_date_float_heuristic (dayPart monthPart : List Char)
    (hd : dayPart ≠ []) (hm : monthPart ≠ [])
    (hdd : ∀ c ∈ dayPart, isDigitChar c = true)
    (hmd : ∀ c ∈ monthPart, isDigitChar c = true)
    (hday1 : 1 ≤ digitsVal dayPart) (hday31 : digitsVal dayPart ≤ 31)
    (hmonth1 : 1 ≤ digitsVal monthPart) (hmonth12 : digitsVal monthPart ≤ 12) :
    isPotentialDateFloatStr (dayPart ++ '.' :: monthPart) = true ∧
    formatDateFloatStr (dayPart ++ '.' :: monthPart) =
      .ok (if digitsVal monthPart = 1 ∧
              (digitsVal dayPart ≤ 9 ∨ 28 ≤ digitsVal dayPart)
           then dayPart ++ chars ".10"
           else dayPart ++ '.' :: monthPart) := by
  have hdot_d : '.' ∉ dayPart := fun hmem => absurd (hdd '.' hmem) (by decide)
  have hdot_m : '.' ∉ monthPart := fun hmem => absurd (hmd '.' hmem) (by decide)
  have hsplit : pySplit (dayPart ++ '.' :: monthPart) '.' = [dayPart, monthPart] := by
    rw [pySplit_append _ _ _ hdot_d, pySplit_no_sep _ _ hdot_m]
  have hcon : (dayPart ++ '.' :: monthPart).contains '.' = true :=
    List.elem_eq_true_of_mem (by simp)
  constructor
  · unfold isPotentialDateFloatStr
    rw [hcon, if_pos rfl, hsplit]
    simp only [pyInt_digits dayPart hd hdd, pyInt_digits monthPart hm hmd,
      decide_eq_true_eq]
    refine ⟨?_, ?_, ?_, ?_⟩ <;> push_cast <;> omega
  · unfold formatDateFloatStr
    rw [hcon, if_pos rfl, hsplit]
    simp only [pyInt_digits dayPart hd hdd, pyInt_digits monthPart hm hmd]
    by_cases h1 : digitsVal monthPart = 1
    · by_cases h2 : 28 ≤ digitsVal dayPart
      · rw [if_pos (by constructor <;> push_cast <;> omega), if_pos (by omega)]
      · by_cases h3 : digitsVal dayPart ≤ 9
        · rw [if_neg (by push_cast; omega),
            if_pos (by refine ⟨?_, ?_, ?_⟩ <;> push_cast <;> omega),
            if_pos (by omega)]
        · rw [if_neg (by push_cast; omega), if_neg (by push_cast; omega),
            if_neg (by omega)]
          simp
    · rw [if_neg (by push_cast; omega), if_neg (by push_cast; omega),
        if_neg (by omega)]
      simp

/-- The concrete CSV bytes of scenario C: `b"A,B,C\nX,Y\nP,Q,R,S"`. -/
def c2Text : List Char := chars "A,B,C\nX,Y\nP,Q,R,S"

/-- Byte form of `c2Text` (ASCII). -/
def c2Bytes : List Nat := c2Text.map Char.toNat

/-- C2: parsing the uneven-rows CSV `b"A,B,C\nX,Y\nP,Q,R,S"` (decoded to
its ASCII text by the chosen codec) yields a grid with `column_count = 4`
whose cell (2,3) is the null-valued padding cell — `get_cell(2,3)`
returns the in-bounds cell with value `None`, matching the repository's
own test `get_cell(2, 3).value is None` — and whose cell (3,4) holds the
string `"S"`. -/
theorem claim_C2_uneven_rows (primary u8 c51 u16 : List Nat → Option (List Char))
    (h : primary c2Bytes = some c2Text) :
    ∃ ws, csvParse primary u8 c51 u16 ⟨',', '"'⟩ (chars "Sheet1") c2Bytes = .ok ws ∧
      ws.column_count = 4 ∧
      ws.get_cell 2 3 = some ⟨2, 3, .none⟩ ∧
      (ws.get_cell 3 4).map Cell.value = some (.str (chars "S")) := by
  have hdec : decodeCSVBytes primary u8 c51 u16 c2Bytes = .ok c2Text := by
    unfold decodeCSVBytes
    rw [h]
  refine ⟨⟨chars "Sheet1",
    [[.str (chars "A"), .str (chars "B"), .str (chars "C"), .none],
     [.str (chars "X"), .str (chars "Y"), .none, .none],
     [.str (chars "P"), .str (chars "Q"), .str (chars "R"), .str (chars "S")]],
    3, 4⟩, ?_, by decide, by decide, by decide⟩
  unfold csvParse
  rw [hdec]
  decide

/-- C2 witness: the hypotheses of `claim_C2_uneven_rows` discharged at the
total latin-1 codec. -/
theorem claim_C2_witness :
    ∃ ws, csvParse latin1Decode latin1Decode latin1Decode latin1Decode
        ⟨',', '"'⟩ (chars "Sheet1") c2Bytes = .ok ws ∧
      ws.column_count = 4 ∧
      ws.get_cell 2 3 = some ⟨2, 3, .none⟩ ∧
      (ws.get_cell 3 4).map Cell.value = some (.str (chars "S")) :=
  claim_C2_uneven_rows latin1Decode latin1Decode latin1Decode latin1Decode
    (by decide)

/-- C8: the column-letter codec is a bijection between positive column
numbers and non-empty uppercase letter strings — converting any non-empty
uppercase string to a number and back reproduces it, converting any
number `n ≥ 1` to letters and back reproduces it, and 1, 26, 27 map to
`A`, `Z`, `AA`. -/
theorem claim_C8_column_letter_bijection (s : List Char) (n : Nat)
    (hne : s ≠ []) (hup : ∀ c ∈ s, isUpperAlpha c = true) (hn : 1 ≤ n) :
    lettersVal (numberToColumnLetter n) = n ∧
    numberToColumnLetter (lettersVal s) = s ∧
    numberToColumnLetter 1 = chars "A" ∧
    numberToColumnLetter 26 = chars "Z" ∧
    numberToColumnLetter 27 = chars "AA" :=
  ⟨lettersVal_numberToColumnLetter n, numberToColumnLetter_lettersVal s hne hup,
    by decide, by decide, by decide⟩

/-- C8 witness: the round trips evaluated at the string `"AZ"` and the
number 28. -/
theorem claim_C8_witness :
    lettersVal (numberToColumnLetter 28) = 28 ∧
    numberToColumnLetter (lettersVal (chars "AZ")) = chars "AZ" := by
  have h := claim_C8_column_letter_bijection (chars "AZ") 28 (by decide)
    (by decide) (by decide)
  exact ⟨h.1, h.2.1⟩

theorem takeWhile_append_all {α} (p : α → Bool) (xs ys : List α)
    (h : ∀ x ∈ xs, p x = true) :
    (xs ++ ys).takeWhile p = xs ++ ys.takeWhile p := by
  induction xs with
  | nil => simp
  | cons c rest ih =>
    simp [List.takeWhile_cons, h c (by simp), ih (fun x hx => h x (by simp [hx]))]

theorem dropWhile_append_all {α} (p : α → Bool) (xs ys : List α)
    (h : ∀ x ∈ xs, p x = true) :
    (xs ++ ys).dropWhile p = ys.dropWhile p := by
  induction xs with
  | nil => simp
  | cons c rest ih =>
    simp only [List.cons_append, List.dropWhile_cons, h c (by simp)]
    exact ih (fun x hx => h x (by simp [hx]))

theorem takeWhile_cons_false {α} (p : α → Bool) (c : α) (rest : List α)
    (h : p c = false) : (c :: rest).takeWhile p = [] := by
  simp [List.takeWhile_cons, h]

theorem dropWhile_cons_false {α} (p : α → Bool) (c : α) (rest : List α)
    (h : p c = false) : (c :: rest).dropWhile p = c :: rest := by
  simp [List.dropWhile_cons, h]

theorem digit_not_upper (c : Char) (h : isDigitChar c = true) :
    isUpperAlpha c = false := by
  unfold isDigitChar at h
  unfold isUpperAlpha
  simp only [Bool.and_eq_true, decide_eq_true_eq] at h
  simp only [Bool.and_eq_false_iff, decide_eq_false_iff_not]
  omega

/-- C5 counterexample: `"A1X"` is not of the exact
letters-then-digits-and-nothing-else shape (the maximal letter run `A`
followed by the maximal digit run `1` does not exhaust the string), yet
parsing succeeds with row 1 and column 1 because `re.match` only anchors
at the start, so no FormatError is raised. -/
theorem claim_C5_counterexample :
    parseCellAddress (chars "A1X") = .ok (1, 1) ∧
    pyUpper (chars "A1X") ≠
      (pyUpper (chars "A1X")).takeWhile isUpperAlpha ++
        ((pyUpper (chars "A1X")).dropWhile isUpperAlpha).takeWhile isDigitChar := by
  decide

/-- C5 (amended): parsing a cell address succeeds exactly when the
uppercased string BEGINS with one non-empty letter run immediately
followed by at least one digit — trailing characters after the digit run
are accepted and ignored rather than rejected; every other string fails
with the FormatError `"Invalid cell address format"`. -/
theorem claim_C5_parse_address_shape (s : List Char) :
    ((∃ row col, parseCellAddress s = .ok (row, col)) ↔
      ∃ letters digits rest, pyUpper s = letters ++ digits ++ rest ∧
        letters ≠ [] ∧ digits ≠ [] ∧
        (∀ c ∈ letters, isUpperAlpha c = true) ∧
        (∀ c ∈ digits, isDigitChar c = true)) ∧
    ((¬ ∃ row col, parseCellAddress s = .ok (row, col)) →
      parseCellAddress s = .error "Invalid cell address format") := by
  unfold parseCellAddress
  by_cases hcond : (pyUpper s).takeWhile isUpperAlpha ≠ [] ∧
      ((pyUpper s).dropWhile isUpperAlpha).takeWhile isDigitChar ≠ []
  · rw [if_pos hcond]
    constructor
    · constructor
      · intro _
        refine ⟨(pyUpper s).takeWhile isUpperAlpha,
          ((pyUpper s).dropWhile isUpperAlpha).takeWhile isDigitChar,
          ((pyUpper s).dropWhile isUpperAlpha).dropWhile isDigitChar,
          ?_, hcond.1, hcond.2, ?_, ?_⟩
        · rw [List.append_assoc,
            List.takeWhile_append_dropWhile isDigitChar
              ((pyUpper s).dropWhile isUpperAlpha),
            List.takeWhile_append_dropWhile isUpperAlpha (pyUpper s)]
        · intro c hc
          exact List.mem_takeWhile_imp hc
        · intro c hc
          exact List.mem_takeWhile_imp hc
      · intro _
        exact ⟨_, _, rfl⟩
    · intro hno
      exact absurd ⟨_, _, rfl⟩ hno
  · rw [if_neg hcond]
    constructor
    · constructor
      · rintro ⟨row, col, hok⟩
        exact absurd hok (by simp)
      · rintro ⟨letters, digits, rest, heq, hlne, hdne, hlet, hdig⟩
        exfalso
        apply hcond
        obtain ⟨d, dtail, rfl⟩ : ∃ d dtail, digits = d :: dtail := by
          cases digits with
          | nil => exact absurd rfl hdne
          | cons d dtail => exact ⟨d, dtail, rfl⟩
        have hd : isDigitChar d = true := hdig d (by simp)
        have hup : isUpperAlpha d = false := digit_not_upper d hd
        constructor
        · rw [heq, List.append_assoc, takeWhile_append_all _ _ _ hlet,
            List.cons_append, takeWhile_cons_false _ _ _ hup, List.append_nil]
          exact hlne
        · rw [heq, List.append_assoc, dropWhile_append_all _ _ _ hlet,
            List.cons_append, dropWhile_cons_false _ _ _ hup,
            ← List.cons_append, takeWhile_append_all _ _ _ hdig]
          simp
    · intro _
      rfl

/-- C5 witness: the shape characterisation applied at `"B2"`. -/
theorem claim_C5_witness :
    ∃ row col, parseCellAddress (chars "B2") = .ok (row, col) :=
  (claim_C5_parse_address_shape (chars "B2")).1.mpr
    ⟨chars "B", chars "2", [], by decide, by decide, by decide,
      by decide, by decide⟩

/-- C4 witness: the heuristic applied at the ordinary date string
`"15.3"` (day 15, month 3): recognised as date-like and kept as-is. -/
theorem claim_C4_witness :
    isPotentialDateFloatStr (chars "15.3") = true ∧
    formatDateFloatStr (chars "15.3") = .ok (chars "15.3") := by
  have h := claim_C4_date_float_heuristic (chars "15") (chars "3")
    (by decide) (by decide) (by decide) (by decide)
    (by decide) (by decide) (by decide) (by decide)
  rw [if_neg (by decide)] at h
  have e : chars "15" ++ '.' :: chars "3" = chars "15.3" := by decide
  rw [e] at h
  exact h

/-- C6 witness: the argmax property of the detector applied at the text
`"a;b;c"`. -/
theorem claim_C6_witness :
    delimiterCount (chars "a;b;c") ','
      ≤ delimiterCount (chars "a;b;c") (detectDelimiterText (chars "a;b;c")) :=
  (claim_C6_detect_delimiter (chars "a;b;c")).2.1 ',' (by decide)

theorem takeWhile_all {α} (p : α → Bool) (l : List α) (h : ∀ x ∈ l, p x = true) :
    l.takeWhile p = l := by
  have := takeWhile_append_all p l [] h
  simpa using this

theorem splitFirst_not_mem (sep : Char) (s : List Char) (h : sep ∉ s) :
    splitFirst sep s = none := by
  induction s with
  | nil => rfl
  | cons c rest ih =>
    have hc : ¬ c = sep := by rintro rfl; exact h (by simp)
    simp [splitFirst, hc, ih (fun hm => h (by simp [hm]))]

theorem splitFirst_append (sep : Char) (xs ys : List Char) (h : sep ∉ xs) :
    splitFirst sep (xs ++ sep :: ys) = some (xs, ys) := by
  induction xs with
  | nil => simp [splitFirst]
  | cons c rest ih =>
    have hc : ¬ c = sep := by rintro rfl; exact h (by simp)
    simp [splitFirst, hc, ih (fun hm => h (by simp [hm]))]

theorem cellAddr_chars (col row : Nat) :
    ∀ c ∈ numberToColumnLetter col ++ natStr row,
      isUpperAlpha c = true ∨ isDigitChar c = true := by
  intro c hc
  rcases List.mem_append.mp hc with h | h
  · exact Or.inl (numberToColumnLetter_all_upper col c h)
  · exact Or.inr (natStr_digits row c h)

theorem map_toUpper_id (s : List Char) (h : ∀ c ∈ s, c.toUpper = c) :
    s.map Char.toUpper = s := by
  induction s with
  | nil => rfl
  | cons c rest ih => simp [h c (by simp), ih (fun x hx => h x (by simp [hx]))]

theorem toUpper_of_upper (c : Char) (h : isUpperAlpha c = true) : c.toUpper = c := by
  unfold isUpperAlpha at h
  simp only [Bool.and_eq_true, decide_eq_true_eq] at h
  obtain ⟨hl, hr⟩ := h
  rw [← Char.ofNat_toNat c]
  set k := c.toNat with hk
  interval_cases k <;> decide

theorem toUpper_of_digit (c : Char) (h : isDigitChar c = true) : c.toUpper = c := by
  unfold isDigitChar at h
  simp only [Bool.and_eq_true, decide_eq_true_eq] at h
  obtain ⟨hl, hr⟩ := h
  rw [← Char.ofNat_toNat c]
  set k := c.toNat with hk
  interval_cases k <;> decide

theorem pyUpper_cellAddr (col row : Nat) :
    pyUpper (numberToColumnLetter col ++ natStr row)
      = numberToColumnLetter col ++ natStr row := by
  unfold pyUpper
  apply map_toUpper_id
  intro c hc
  rcases cellAddr_chars col row c hc with h | h
  · exact toUpper_of_upper c h
  · exact toUpper_of_digit c h

theorem parseCellAddress_cellAddr (row col : Nat) (hcol : 1 ≤ col) :
    parseCellAddress (numberToColumnLetter col ++ natStr row) = .ok (row, col) := by
  simp only [parseCellAddress]
  rw [pyUpper_cellAddr]
  obtain ⟨d, dtail, hD⟩ : ∃ d dtail, natStr row = d :: dtail := by
    cases hh : natStr row with
    | nil => exact absurd hh (natStr_ne_nil row)
    | cons d dtail => exact ⟨d, dtail, rfl⟩
  have hd : isDigitChar d = true := natStr_digits row d (by rw [hD]; simp)
  rw [takeWhile_append_all _ _ _ (numberToColumnLetter_all_upper col),
    dropWhile_append_all _ _ _ (numberToColumnLetter_all_upper col), hD,
    takeWhile_cons_false _ _ _ (digit_not_upper d hd), List.append_nil,
    dropWhile_cons_false _ _ _ (digit_not_upper d hd),
    takeWhile_all _ _ (by rw [← hD]; exact natStr_digits row)]
  rw [if_pos ⟨numberToColumnLetter_ne_nil col hcol, by simp⟩]
  rw [← hD, digitsVal_natStr, lettersVal_numberToColumnLetter]

/-- C7 counterexample: `Range(1, 1, 1, 1, "")` passes construction
validation (its `worksheet_name` is non-null), but its name is falsy, so
`address` omits the `name!` prefix and re-parsing yields a Range with a
null `worksheet_name` — the round trip does not reproduce the Range. -/
theorem claim_C7_counterexample :
    Range.valid ⟨1, 1, 1, 1, some []⟩ ∧
    Range.from_address (Range.address ⟨1, 1, 1, 1, some []⟩)
      = .ok ⟨1, 1, 1, 1, Option.none⟩ ∧
    (⟨1, 1, 1, 1, Option.none⟩ : Range) ≠ ⟨1, 1, 1, 1, some []⟩ := by
  exact ⟨by decide, by decide, by decide⟩

/-- C7 (amended): serialising a valid Range to its address string and
re-parsing reproduces it whenever the `worksheet_name` is null, or is
non-empty and contains no `!` (a falsy empty name is dropped by `address`
and a name containing `!` corrupts the `name!range` split, so those do
not round-trip). -/
theorem claim_C7_round_trip (r : Range) (hv : r.valid)
    (hname : r.worksheet_name = Option.none ∨
      ∃ wn, r.worksheet_name = some wn ∧ wn ≠ [] ∧ '!' ∉ wn) :
    Range.from_address r.address = .ok r := by
  obtain ⟨sr, er, sc, ec, wn⟩ := r
  unfold Range.valid at hv
  simp only at hv
  obtain ⟨h1, h2, h3, h4⟩ := hv
  have hcellb : ∀ col row : Nat, '!' ∉ numberToColumnLetter col ++ natStr row := by
    intro col row hm
    rcases cellAddr_chars col row _ hm with hu | hu <;> exact absurd hu (by decide)
  have hcellc : ∀ col row : Nat, ':' ∉ numberToColumnLetter col ++ natStr row := by
    intro col row hm
    rcases cellAddr_chars col row _ hm with hu | hu <;> exact absurd hu (by decide)
  have hbangrange : '!' ∉ (numberToColumnLetter sc ++ natStr sr) ++ ':' ::
      (numberToColumnLetter ec ++ natStr er) := by
    intro hm
    rcases List.mem_append.mp hm with hm | hm
    · exact hcellb sc sr hm
    · rcases List.mem_cons.mp hm with hm | hm
      · exact absurd hm (by decide)
      · exact hcellb ec er hm
  have hsp2 : splitFirst ':' ((numberToColumnLetter sc ++ natStr sr) ++ ':' ::
      (numberToColumnLetter ec ++ natStr er))
      = some (numberToColumnLetter sc ++ natStr sr,
          numberToColumnLetter ec ++ natStr er) :=
    splitFirst_append _ _ _ (hcellc sc sr)
  have hp1 : parseCellAddress (numberToColumnLetter sc ++ natStr sr)
      = .ok (sr, sc) := parseCellAddress_cellAddr sr sc h3
  have hp2 : parseCellAddress (numberToColumnLetter ec ++ natStr er)
      = .ok (er, ec) := parseCellAddress_cellAddr er ec (by omega)
  have hmk : ∀ w : Option (List Char), mkRange sr er sc ec w = .ok ⟨sr, er, sc, ec, w⟩ := by
    intro w
    unfold mkRange
    rw [if_neg (by omega), if_neg (by omega), if_neg (by omega), if_neg (by omega)]
  rcases hname with hn | ⟨w, hw, hwne, hwb⟩
  · simp only at hn
    subst hn
    have haddr : Range.address ⟨sr, er, sc, ec, Option.none⟩
        = (numberToColumnLetter sc ++ natStr sr) ++ ':' ::
            (numberToColumnLetter ec ++ natStr er) := by
      simp [Range.address, List.append_assoc]
    have hsp1 : splitFirst '!' ((numberToColumnLetter sc ++ natStr sr) ++ ':' ::
        (numberToColumnLetter ec ++ natStr er)) = none :=
      splitFirst_not_mem _ _ hbangrange
    simp only [Range.from_address, haddr, hsp1, hsp2, hp1, hp2, hmk,
      Bind.bind, Except.bind]
  · simp only at hw
    subst hw
    have haddr : Range.address ⟨sr, er, sc, ec, some w⟩
        = w ++ '!' :: ((numberToColumnLetter sc ++ natStr sr) ++ ':' ::
            (numberToColumnLetter ec ++ natStr er)) := by
      simp [Range.address, hwne, List.append_assoc]
    have hsp1 : splitFirst '!' (w ++ '!' :: ((numberToColumnLetter sc ++ natStr sr)
        ++ ':' :: (numberToColumnLetter ec ++ natStr er)))
        = some (w, (numberToColumnLetter sc ++ natStr sr) ++ ':' ::
            (numberToColumnLetter ec ++ natStr er)) :=
      splitFirst_append _ _ _ hwb
    simp only [Range.from_address, haddr, hsp1, hsp2, hp1, hp2, hmk,
      Bind.bind, Except.bind]

/-- C7 witness: the round trip applied at `Sheet1!A1:C2`. -/
theorem claim_C7_witness :
    Range.from_address (Range.address ⟨1, 2, 1, 3, some (chars "Sheet1")⟩)
      = .ok ⟨1, 2, 1, 3, some (chars "Sheet1")⟩ :=
  claim_C7_round_trip ⟨1, 2, 1, 3, some (chars "Sheet1")⟩ (by decide)
    (Or.inr ⟨chars "Sheet1", rfl, by decide, by decide⟩)

theorem except_bind_ok {α β : Type} (x : Except String α) (f : α → Except String β)
    (b : β) (h : x >>= f = .ok b) : ∃ a, x = .ok a ∧ f a = .ok b := by
  cases x with
  | error e => simp [Bind.bind, Except.bind] at h
  | ok a => exact ⟨a, rfl, by simpa [Bind.bind, Except.bind] using h⟩

theorem except_ok_bind {α β : Type} (a : α) (f : α → Except String β) :
    (Except.ok a >>= f) = f a := rfl

theorem except_pure_eq_ok {β : Type} (b : β) : (pure b : Except String β) = .ok b := rfl

theorem mapM_ok_of_fn {α β : Type} (f : α → Except String β) (g : α → β)
    (hf : ∀ a, f a = .ok (g a)) : ∀ l : List α, l.mapM f = .ok (l.map g) := by
  intro l
  induction l with
  | nil => rfl
  | cons a t ih =>
    simp only [List.mapM_cons, hf, ih, except_ok_bind, except_pure_eq_ok,
      List.map_cons]

theorem mapM_clean_row (row : List (List Char)) :
    row.mapM (fun f => cleanCellValue Option.none (.str f))
      = .ok (row.map cleanStr) :=
  mapM_ok_of_fn _ cleanStr (fun _ => rfl) row

theorem mapM_clean_rows (rows : List (List (List Char))) :
    rows.mapM (fun row => row.mapM (fun f => cleanCellValue Option.none (.str f)))
      = .ok (csvCleanRows rows) := by
  have h := mapM_ok_of_fn
    (fun row : List (List Char) => row.mapM (fun f => cleanCellValue Option.none (.str f)))
    (fun row => row.map cleanStr) (fun row => mapM_clean_row row) rows
  simpa [csvCleanRows] using h

theorem mapM_ok_length {α β : Type} (f : α → Except String β) :
    ∀ (l : List α) (l2 : List β), l.mapM f = .ok l2 → l2.length = l.length := by
  intro l
  induction l with
  | nil =>
    intro l2 h
    simp only [List.mapM_nil] at h
    have : ([] : List β) = l2 := by simpa [pure, Except.pure] using h
    rw [← this]
    rfl
  | cons a t ih =>
    intro l2 h
    rw [List.mapM_cons] at h
    obtain ⟨b, hb, h2⟩ := except_bind_ok _ _ _ h
    obtain ⟨bs, hbs, h3⟩ := except_bind_ok _ _ _ h2
    have hl2 : b :: bs = l2 := by simpa [pure, Except.pure] using h3
    rw [← hl2]
    simp [ih bs hbs]

theorem le_maxRowLen (rows : List (List PyValue)) (r : List PyValue)
    (h : r ∈ rows) : r.length ≤ maxRowLen rows := by
  induction rows with
  | nil => cases h
  | cons a t ih =>
    rcases List.mem_cons.mp h with rfl | hm
    · exact le_max_left _ _
    · exact le_trans (ih hm) (le_max_right _ _)

theorem padRows_mem_length (rows : List (List PyValue)) :
    ∀ r ∈ padRows (maxRowLen rows) rows, r.length = maxRowLen rows := by
  intro r hr
  rcases List.mem_map.mp hr with ⟨row, hrow, rfl⟩
  have hle := le_maxRowLen rows row hrow
  simp only [List.length_append, List.length_replicate]
  omega

/-- C1: every grid a normaliser returns is rectangular — for the CSV
pipeline, whenever `parse` returns a worksheet, every stored row has
length `column_count`, `column_count` is the maximum length of the
cleaned pre-padding rows (`csvCleanRows` of the tokenizer output, 0 when
there are none) and `row_count` is the number of tokenized rows; for the
XLSX per-sheet normalisation, the same invariants hold with respect to
the cleaned extracted rows, with `row_count` the number of extracted
rows; and empty input (empty bytes for CSV, a sheet with no rows for
XLSX) yields the 0×0 worksheet with empty data rather than an error. -/
theorem claim_C1_grid_invariants (primary u8 c51 u16 : List Nat → Option (List Char))
    (cfg : CSVParserConfig) (name xname : List Char) (data : List Nat)
    (ps : Option Bool) (xrows : List (List PyValue))
    (hname : pyStrip name ≠ []) (hxname : pyStrip xname ≠ [])
    (hprim : primary [] = some []) :
    (∀ ws text, decodeCSVBytes primary u8 c51 u16 data = .ok text →
      csvParse primary u8 c51 u16 cfg name data = .ok ws →
      (∀ row ∈ ws.data, row.length = ws.column_count) ∧
      ws.column_count = maxRowLen (csvCleanRows
        (csvTokenize cfg.delimiter (effectiveQuote cfg text) text)) ∧
      ws.row_count = (csvTokenize cfg.delimiter (effectiveQuote cfg text) text).length) ∧
    (∀ ws cleaned, xrows.mapM (fun row => row.mapM (cleanCellValue ps)) = .ok cleaned →
      xlsxNormalize ps xname xrows = .ok ws →
      (∀ row ∈ ws.data, row.length = ws.column_count) ∧
      ws.column_count = maxRowLen cleaned ∧
      ws.row_count = xrows.length) ∧
    csvParse primary u8 c51 u16 cfg name [] = .ok ⟨name, [], 0, 0⟩ ∧
    xlsxNormalize ps xname [] = .ok ⟨xname, [], 0, 0⟩ := by
  refine ⟨?_, ?_, ?_, ?_⟩
  · intro ws text hdec hp
    unfold csvParse at hp
    rw [hdec] at hp
    replace hp : csvParseText cfg name text = .ok ws := hp
    simp only [csvParseText] at hp
    by_cases hnil : csvTokenize cfg.delimiter (effectiveQuote cfg text) text = []
    · rw [if_pos hnil] at hp
      unfold mkWorksheet at hp
      rw [if_neg hname] at hp
      have hws := Except.ok.inj hp
      subst hws
      exact ⟨by simp, by simp [hnil, csvCleanRows, maxRowLen],
        by simp [hnil]⟩
    · rw [if_neg hnil] at hp
      rw [mapM_clean_rows] at hp
      replace hp : mkWorksheet name
          (padRows (maxRowLen (csvCleanRows
            (csvTokenize cfg.delimiter (effectiveQuote cfg text) text)))
            (csvCleanRows (csvTokenize cfg.delimiter (effectiveQuote cfg text) text)))
          (csvCleanRows (csvTokenize cfg.delimiter (effectiveQuote cfg text) text)).length
          (maxRowLen (csvCleanRows
            (csvTokenize cfg.delimiter (effectiveQuote cfg text) text)))
          = .ok ws := hp
      unfold mkWorksheet at hp
      rw [if_neg hname] at hp
      have hws := Except.ok.inj hp
      subst hws
      exact ⟨padRows_mem_length _, rfl, by simp [csvCleanRows]⟩
  · intro ws cleaned hclean hx
    unfold xlsxNormalize at hx
    rw [hclean] at hx
    replace hx : mkWorksheet xname (padRows (maxRowLen cleaned) cleaned)
        cleaned.length (maxRowLen cleaned) = .ok ws := hx
    unfold mkWorksheet at hx
    rw [if_neg hxname] at hx
    have hws := Except.ok.inj hx
    subst hws
    exact ⟨padRows_mem_length cleaned, rfl,
      mapM_ok_length (fun row => row.mapM (cleanCellValue ps)) xrows cleaned hclean⟩
  · have hdec : decodeCSVBytes primary u8 c51 u16 [] = .ok [] := by
      unfold decodeCSVBytes
      rw [hprim]
    unfold csvParse
    rw [hdec]
    show csvParseText cfg name [] = .ok ⟨name, [], 0, 0⟩
    simp only [csvParseText]
    have h0 : csvTokenize cfg.delimiter (effectiveQuote cfg []) [] = [] := rfl
    rw [if_pos h0]
    unfold mkWorksheet
    rw [if_neg hname]
  · unfold xlsxNormalize
    show mkWorksheet xname (padRows (maxRowLen []) [])
        ([] : List (List PyValue)).length (maxRowLen []) = _
    unfold mkWorksheet
    rw [if_neg hxname]
    rfl

/-- C1 witness: the empty-input conjunct of the invariants theorem,
instantiated at the latin-1 codec and the sheet name `Sheet1`. -/
theorem claim_C1_witness :
    csvParse latin1Decode latin1Decode latin1Decode latin1Decode ⟨',', '"'⟩
      (chars "Sheet1") [] = .ok ⟨chars "Sheet1", [], 0, 0⟩ :=
  (claim_C1_grid_invariants latin1Decode latin1Decode latin1Decode latin1Decode
    ⟨',', '"'⟩ (chars "Sheet1") (chars "Sheet1") [] (some false) []
    (by decide) (by decide) (by decide)).2.2.1

end GSparse
